import Mathlib

/-!
Shallow embedding of the recipe-extraction pipeline of
`src/app/api/parse-recipe/route.ts` (the later of the two file revisions,
the one with the in-memory cache).  Pure functions of the source become
Lean functions; the DOM queries performed through the cheerio library are
modelled by their results (the lists of matched texts / attributes, in
document order); `JSON.parse` is modelled by its outcome, an optional
JSON value.
-/

/-- A JSON value as produced by `JSON.parse`: null, boolean, number,
string, array or object.  Numbers are modelled as integers (every number
appearing in the claims is one). -/
inductive Json where
  | null : Json
  | bool : Bool → Json
  | num : Int → Json
  | str : String → Json
  | arr : List Json → Json
  | obj : List (String × Json) → Json

/-- Key lookup in a parsed JSON object (first matching key). -/
def jsonLookup (fs : List (String × Json)) (k : String) : Option Json :=
  match fs with
  | [] => none
  | (k2, v) :: rest => if k2 = k then some v else jsonLookup rest k

/-- JavaScript truthiness of a JSON value: `null`, `false`, `0` and the
empty string are falsy; arrays and objects are always truthy. -/
def jsFalsy : Json → Bool
  | Json.null => true
  | Json.bool b => !b
  | Json.num n => n == 0
  | Json.str s => s == ""
  | Json.arr _ => false
  | Json.obj _ => false

mutual

/-- The JavaScript `String(x)` conversion on JSON values: `null` prints
as "null", booleans as "true"/"false", numbers in decimal, arrays join
their elements with commas (null elements becoming empty), and plain
objects print as "[object Object]". -/
def jsToString : Json → String
  | Json.null => "null"
  | Json.bool b => if b then "true" else "false"
  | Json.num n => toString n
  | Json.str s => s
  | Json.arr xs => String.intercalate "," (jsArrElems xs)
  | Json.obj _ => "[object Object]"

/-- Element-wise string conversion used by `String` on an array
(`Array.prototype.join`): a null element contributes the empty string. -/
def jsArrElems : List Json → List String
  | [] => []
  | Json.null :: rest => "" :: jsArrElems rest
  | j :: rest => jsToString j :: jsArrElems rest

end

/-- The JavaScript `trim()` on the character list of a string:
whitespace is removed from both ends. -/
def trimChars (cs : List Char) : List Char :=
  ((cs.dropWhile Char.isWhitespace).reverse.dropWhile Char.isWhitespace).reverse

/-- The JavaScript `trim()` on strings. -/
def jsTrim (s : String) : String :=
  String.mk (trimChars s.data)

/-- Non-throwing property access `data[k]` as used on values statically
typed `Record<string, unknown>`: field lookup on objects, absent
(undefined) on every other value. -/
def jsonGet : Json → String → Option Json
  | Json.obj fs, k => jsonLookup fs k
  | _, _ => none

/-- `span` of leading decimal digits of a character list
(the greedy digit run taken by a regular-expression group). -/
def takeDigits : List Char → List Char × List Char
  | [] => ([], [])
  | c :: cs =>
    if c.isDigit then
      let p := takeDigits cs
      (c :: p.1, p.2)
    else ([], c :: cs)

/-- Numeric value of a run of decimal digits (what `parseInt` returns on
the captured group). -/
def digitsVal (ds : List Char) : Nat :=
  ds.foldl (fun a c => a * 10 + (c.toNat - 48)) 0

/-- One optional group of the duration pattern: a non-empty digit run
followed immediately by the given unit letter; returns the parsed value
and the remaining characters, or nothing when the group does not match
there. -/
def matchNumUnit (unit : Char) (cs : List Char) : Option (Nat × List Char) :=
  match takeDigits cs with
  | ([], _) => none
  | (ds, c :: rest) => if c = unit then some (digitsVal ds, rest) else none
  | (_ :: _, []) => none

/-- Hours and minutes captured by the pattern `PT(?:(\d+)H)?(?:(\d+)M)?`
on the characters following "PT": the optional hours group is tried
first, then the optional minutes group at the resulting position; a
group that does not capture counts as 0 (the captured group defaults
to the zero digit before `parseInt`). -/
def ptComponents (rest : List Char) : Nat × Nat :=
  match matchNumUnit 'H' rest with
  | some (h, rest2) =>
    match matchNumUnit 'M' rest2 with
    | some (m, _) => (h, m)
    | none => (h, 0)
  | none =>
    match matchNumUnit 'M' rest with
    | some (m, _) => (0, m)
    | none => (0, 0)

/-- `formatTime` of the source: an absent or empty input yields absent; a
string not beginning with "PT" is returned unchanged; otherwise the
hours/minutes groups are parsed and rendered as "Hh Mm", "Hh" or "Mm"
according to which parts are non-zero, falling back to the original
string when both are zero. -/
def formatTime (time : Option String) : Option String :=
  match time with
  | none => none
  | some t =>
    if t = "" then none
    else
      match t.data with
      | 'P' :: 'T' :: rest =>
        let hm := ptComponents rest
        if hm.1 ≠ 0 ∧ hm.2 ≠ 0 then some (toString hm.1 ++ "h " ++ toString hm.2 ++ "m")
        else if hm.1 ≠ 0 then some (toString hm.1 ++ "h")
        else if hm.2 ≠ 0 then some (toString hm.2 ++ "m")
        else some t
      | _ => some t

/-- Per-element conversion inside `parseInstructions` on an array: a
string stands for itself; an object uses its string-valued `text` field,
else its string-valued `name` field, else the generic string conversion;
every other value goes through the generic string conversion. -/
def instructionToText (instruction : Json) : String :=
  match instruction with
  | Json.str s => s
  | Json.obj fs =>
    (match jsonLookup fs "text" with
     | some (Json.str t) => t
     | _ =>
       match jsonLookup fs "name" with
       | some (Json.str n) => n
       | _ => jsToString (Json.obj fs))
  | j => jsToString j

/-- `parseInstructions` of the source.  The argument is the (possibly
absent) value of the `recipeInstructions` field.  A falsy value yields
the empty list; an array is mapped element-wise by `instructionToText`
and elements that became the empty string are dropped (`filter(Boolean)`
on strings); a single string yields itself; a single object yields its
`text` else `name` string field; anything else its generic string
conversion. -/
def parseInstructions (instructions : Option Json) : List String :=
  match instructions with
  | none => []
  | some j =>
    if jsFalsy j then []
    else
      match j with
      | Json.arr xs => (xs.map instructionToText).filter (fun s => s ≠ "")
      | Json.str s => [s]
      | Json.obj fs =>
        (match jsonLookup fs "text" with
         | some (Json.str t) => [t]
         | _ =>
           match jsonLookup fs "name" with
           | some (Json.str n) => [n]
           | _ => [jsToString (Json.obj fs)])
      | other => [jsToString other]

/-- The canonical output record `Recipe` of `src/app/types/recipe.ts` as
produced by the extractors (optional fields are `Option`). -/
structure Recipe where
  name : String
  description : Option String := none
  prepTime : Option String := none
  cookTime : Option String := none
  totalTime : Option String := none
  servings : Option String := none
  ingredients : List String := []
  instructions : List String := []
  image : Option String := none
  url : String := ""
  deriving DecidableEq

/-- `parseJsonLdRecipe` of the source (later revision): field-by-field
normalization of a recipe-typed JSON node with explicit runtime type
checks. -/
def parseJsonLdRecipe (data : Json) : Recipe :=
  { name :=
      match jsonGet data "name" with
      | some (Json.str s) => s
      | _ => "Untitled Recipe"
    description :=
      match jsonGet data "description" with
      | some (Json.str s) => some s
      | _ => none
    prepTime :=
      match jsonGet data "prepTime" with
      | some (Json.str s) => formatTime (some s)
      | _ => none
    cookTime :=
      match jsonGet data "cookTime" with
      | some (Json.str s) => formatTime (some s)
      | _ => none
    totalTime :=
      match jsonGet data "totalTime" with
      | some (Json.str s) => formatTime (some s)
      | _ => none
    servings :=
      match jsonGet data "recipeYield" with
      | none => none
      | some v => if jsFalsy v then none else some (jsToString v)
    ingredients :=
      match jsonGet data "recipeIngredient" with
      | some (Json.arr xs) =>
        xs.filterMap (fun j => match j with | Json.str s => some s | _ => none)
      | some (Json.str s) => [s]
      | _ => []
    instructions := parseInstructions (jsonGet data "recipeInstructions")
    image :=
      match jsonGet data "image" with
      | some (Json.str s) => some s
      | some (Json.obj fs) =>
        (match jsonLookup fs "url" with
         | some (Json.str u) => some u
         | _ => none)
      | _ => none
    url := "" }

/-- Property access `item[k]` on an arbitrary JSON value: throws a
TypeError (modelled as `Except.error`) on null, looks the key up on
objects, and yields undefined (`none`) on every other value. -/
def jsGetE : Json → String → Except Unit (Option Json)
  | Json.null, _ => Except.error ()
  | Json.obj fs, k => Except.ok (jsonLookup fs k)
  | _, _ => Except.ok none

/-- The test of strict equality between the accessed `@type` field
value: true exactly for the string "Recipe". -/
def isTypeRecipe (t : Option Json) : Bool :=
  match t with
  | some (Json.str s) => s == "Recipe"
  | _ => false

/-- The `@graph`-collection search performed with `find`: walks the
nodes in order testing the `@type` field for "Recipe", where accessing
`@type` on a null node throws; returns the first recipe-typed node. -/
def findGraphRecipe : List Json → Except Unit (Option Json)
  | [] => Except.ok none
  | node :: rest => do
    let t ← jsGetE node "@type"
    if isTypeRecipe t then Except.ok (some node) else findGraphRecipe rest

/-- The inner `for (const item of recipes)` loop of `extractFromJsonLd`:
an item typed "Recipe" wins immediately; otherwise a truthy `@graph`
field must be an array (anything else has no `find` method and throws)
and is searched for a recipe-typed node.  A thrown error anywhere makes
the enclosing block be skipped. -/
def findRecipeInItems : List Json → Except Unit (Option Recipe)
  | [] => Except.ok none
  | item :: rest => do
    let t ← jsGetE item "@type"
    if isTypeRecipe t then Except.ok (some (parseJsonLdRecipe item))
    else do
      let g ← jsGetE item "@graph"
      match g with
      | none => findRecipeInItems rest
      | some gv =>
        if jsFalsy gv then findRecipeInItems rest
        else
          match gv with
          | Json.arr nodes => do
            let r ← findGraphRecipe nodes
            match r with
            | some node =>
              if jsFalsy node then findRecipeInItems rest
              else Except.ok (some (parseJsonLdRecipe node))
            | none => findRecipeInItems rest
          | _ => Except.error ()

/-- `extractFromJsonLd` of the source.  Each linked-data script block is
modelled by the outcome of reading its content and running `JSON.parse`
on it: `none` when the content is null or the parse throws (both make
the block count for nothing), `some j` when it parses to the value `j`.
Blocks are scanned in document order; a parsed array is treated as the
item list, anything else as a one-item list; an exception inside a block
is caught and scanning continues with the next block. -/
def extractFromJsonLd : List (Option Json) → Option Recipe
  | [] => none
  | none :: rest => extractFromJsonLd rest
  | some data :: rest =>
    let recipes := match data with | Json.arr xs => xs | d => [d]
    match findRecipeInItems recipes with
    | Except.error () => extractFromJsonLd rest
    | Except.ok (some r) => some r
    | Except.ok none => extractFromJsonLd rest

/-- One element matched by the micro-annotation selector
`[itemtype*="Recipe"]`, modelled by the results of the queries
`extractFromMicrodata` performs on it: the text of the first matching
descendant for single-valued properties, the attribute values where the
source reads attributes, and the full matched text lists for the
ingredient and instruction properties, in document order.  A `.text()`
call on an empty selection yields "", an `.attr()` call on an empty
selection or a missing attribute yields `none`. -/
structure MicroElem where
  nameText : String := ""
  descriptionText : String := ""
  prepTimeAttr : Option String := none
  prepTimeText : String := ""
  cookTimeAttr : Option String := none
  cookTimeText : String := ""
  totalTimeAttr : Option String := none
  totalTimeText : String := ""
  servingsText : String := ""
  imageSrc : Option String := none
  ingredientTexts : List String := []
  instructionTexts : List String := []
  deriving DecidableEq

/-- The idiom `attr or text.trim() or undefined`: the attribute when
present and non-empty, else the trimmed text when non-empty, else
absent. -/
def attrOrText (attr : Option String) (txt : String) : Option String :=
  match attr with
  | some a => if a ≠ "" then some a else if jsTrim txt ≠ "" then some (jsTrim txt) else none
  | none => if jsTrim txt ≠ "" then some (jsTrim txt) else none

/-- The idiom `text.trim() or undefined`. -/
def textOrNone (txt : String) : Option String :=
  if jsTrim txt ≠ "" then some (jsTrim txt) else none

/-- `extractFromMicrodata` of the source.  The argument lists the
elements matching `[itemtype*="Recipe"]` in document order; only the
first is used.  No element at all, or an empty trimmed name on the first
element, yields null; otherwise the record is assembled, keeping every
non-empty trimmed ingredient/instruction text, with no emptiness gate on
those lists. -/
def extractFromMicrodata (elems : List MicroElem) : Option Recipe :=
  match elems with
  | [] => none
  | el :: _ =>
    let name := jsTrim el.nameText
    if name = "" then none
    else some
      { name := name
        description := textOrNone el.descriptionText
        prepTime := attrOrText el.prepTimeAttr el.prepTimeText
        cookTime := attrOrText el.cookTimeAttr el.cookTimeText
        totalTime := attrOrText el.totalTimeAttr el.totalTimeText
        servings := textOrNone el.servingsText
        ingredients := (el.ingredientTexts.map jsTrim).filter (fun s => s ≠ "")
        instructions := (el.instructionTexts.map jsTrim).filter (fun s => s ≠ "")
        image :=
          match el.imageSrc with
          | some s => if s ≠ "" then some s else none
          | none => none
        url := "" }

/-- The generic-page document seen by the heuristic extractor, modelled
by the results of its selector queries: for each title selector (in the
fixed priority order) the text of the first match, and for each
ingredient / instruction selector the texts of all its matches in
document order. -/
structure HtmlDoc where
  titleTexts : List String := []
  ingredientSels : List (List String) := []
  instructionSels : List (List String) := []
  deriving DecidableEq

/-- The title loop of `extractFromHtmlPatterns`: first selector whose
trimmed text is non-empty and longer than 3 characters wins. -/
def findTitle : List String → String
  | [] => ""
  | t :: rest =>
    let tt := jsTrim t
    if tt ≠ "" ∧ 3 < tt.length then tt else findTitle rest

/-- The per-element body of the candidate-collection loops: push the
trimmed text when it is non-empty, longer than the threshold, and not
already collected. -/
def collectStep (minLen : Nat) (acc : List String) (elText : String) : List String :=
  if jsTrim elText ≠ "" ∧ minLen < (jsTrim elText).length ∧ jsTrim elText ∉ acc
  then acc ++ [jsTrim elText] else acc

/-- The selector loop of `extractFromHtmlPatterns`: selectors are tried
in order against the shared accumulator, and the loop breaks as soon as
the accumulator is non-empty after the pass of a selector. -/
def collectFromSelectors (minLen : Nat) (acc : List String) :
    List (List String) → List String
  | [] => acc
  | sel :: rest =>
    let acc2 := sel.foldl (collectStep minLen) acc
    if 0 < acc2.length then acc2 else collectFromSelectors minLen acc2 rest

/-- `extractFromHtmlPatterns` of the source: find a title (length
threshold 3), collect ingredients (threshold 2) and instructions
(threshold 10) by first-match-wins selector passes, and return null
unless the title is non-empty and both lists are non-empty. -/
def extractFromHtmlPatterns (d : HtmlDoc) : Option Recipe :=
  let name := findTitle d.titleTexts
  if name = "" then none
  else
    let ingredients := collectFromSelectors 2 [] d.ingredientSels
    let instructions := collectFromSelectors 10 [] d.instructionSels
    if ingredients.length = 0 ∨ instructions.length = 0 then none
    else some { name := name, ingredients := ingredients,
                instructions := instructions, url := "" }

/-- A fetched document as consumed by the three extractor tiers. -/
structure Document where
  jsonLdBlocks : List (Option Json) := []
  microdataElems : List MicroElem := []
  html : HtmlDoc := {}

/-- The tier cascade of the POST handler: structured data first, then
micro-annotations, then heuristic patterns; the first non-null result is
the outcome and lower tiers are not consulted (`null` everywhere is the
could-not-extract failure). -/
def extractRecipe (doc : Document) : Option Recipe :=
  match extractFromJsonLd doc.jsonLdBlocks with
  | some r => some r
  | none =>
    match extractFromMicrodata doc.microdataElems with
    | some r => some r
    | none => extractFromHtmlPatterns doc.html

/-- The fixed capacity of the recipe cache (`MAX_CACHE_SIZE`). -/
def MAX_CACHE_SIZE : Nat := 100

/-- The in-memory recipe cache, a JavaScript `Map` modelled as its entry
list in insertion order (keys unique). -/
abbrev Cache : Type := List (String × Recipe)

/-- `Map.set`: an existing key keeps its position and gets the new
value; a new key is appended at the end. -/
def mapSet (m : Cache) (k : String) (v : Recipe) : Cache :=
  if (List.any m fun p => p.1 == k) then
    List.map (fun p => if p.1 == k then (k, v) else p) m
  else m ++ [(k, v)]

/-- `Map.delete k`: the entry with key `k` is removed (in a `Map` keys
are unique, so at most one entry carries `k`). -/
def mapDelete (m : Cache) (k : String) : Cache :=
  List.filter (fun p => p.1 ≠ k) m

/-- The insertion step of the POST handler: `recipeCache.set(url,
recipe)`, then, when the size exceeds `MAX_CACHE_SIZE`, read the first
(oldest) key from the iterator and, when it is truthy, delete it. -/
def cacheInsert (m : Cache) (k : String) (v : Recipe) : Cache :=
  let m2 := mapSet m k v
  if MAX_CACHE_SIZE < List.length m2 then
    match List.head? m2 with
    | some p => if p.1 ≠ "" then mapDelete m2 p.1 else m2
    | none => m2
  else m2

/-- The caches the POST handler can ever build: it starts empty and
grows only through `cacheInsert`, always with a truthy (hence non-empty)
url key — a falsy url is rejected with status 400 before any caching. -/
inductive ReachableCache : Cache → Prop
  | empty : ReachableCache []
  | insert (m : Cache) (k : String) (v : Recipe) :
      ReachableCache m → k ≠ "" → ReachableCache (cacheInsert m k v)

/-- Whether a string begins with the characters "PT" (the guard
`startsWith` guard of `formatTime`). -/
def startsPT (s : String) : Bool :=
  match s.data with
  | 'P' :: 'T' :: _ => true
  | _ => false

/-- A concrete recipe-typed structured-data node, used in witnesses. -/
def sampleJsonLdNode : Json :=
  Json.obj
    [("@type", Json.str "Recipe"), ("name", Json.str "Bolognese"),
      ("recipeIngredient", Json.arr [Json.str "beef", Json.str "tomato"]),
      ("recipeInstructions",
        Json.arr [Json.str "Brown the beef", Json.str "Simmer the sauce"])]

/-- A concrete micro-annotated element, used in witnesses. -/
def sampleMicroElem : MicroElem :=
  { nameText := "Micro Pie", ingredientTexts := ["salt"],
    instructionTexts := ["Mix everything well"] }

/-- A concrete document carrying both a valid structured-data block and
micro-annotation markup, used in witnesses. -/
def docBothTiers : Document :=
  { jsonLdBlocks := [some sampleJsonLdNode],
    microdataElems := [sampleMicroElem], html := {} }

/-- A concrete recipe record, used in witnesses. -/
def sampleRecipe : Recipe :=
  { name := "Soup", ingredients := ["water"], instructions := ["Boil it"] }

/-- A concrete document with a recognizable title but no ingredient
candidate long enough, and no semantic markup, used in witnesses. -/
def heuristicFailDoc : Document :=
  { jsonLdBlocks := [], microdataElems := [],
    html := { titleTexts := ["Chocolate Cake"], ingredientSels := [["ab"]],
              instructionSels := [["Stir well the batter"]] } }

/-- Claim C2, counterexample: the empty string does not match the
machine-duration pattern, yet `formatTime` maps it to the absent value
instead of returning it unchanged, refuting "every string that does not
match the expected pattern is returned unchanged". -/
theorem formatTime_empty_counterexample :
    formatTime (some "") ≠ some "" := by decide

/-- Claim C2 (amended): "PT1H30M" renders as "1h 30m", "PT45M" as
"45m", "PT2H" as "2h"; every non-empty string that does not begin with
"PT" (such as "45 minutes") is returned unchanged; every non-empty
string yields a result; the empty string alone is mapped to the absent
value rather than passed through. -/
theorem formatTime_spec :
    formatTime (some "PT1H30M") = some "1h 30m" ∧
    formatTime (some "PT45M") = some "45m" ∧
    formatTime (some "PT2H") = some "2h" ∧
    (∀ s : String, s ≠ "" → startsPT s = false → formatTime (some s) = some s) ∧
    (∀ s : String, s ≠ "" → ∃ r, formatTime (some s) = some r) ∧
    formatTime (some "") = none := by
  refine ⟨by decide, by decide, by decide, ?_, ?_, by decide⟩
  · intro s hne hpt
    simp only [formatTime]
    rw [if_neg hne]
    split
    · rename_i rest heq
      exfalso
      simp only [startsPT, heq] at hpt
      exact Bool.noConfusion hpt
    · rfl
  · intro s hne
    simp only [formatTime]
    rw [if_neg hne]
    split
    · split
      · exact ⟨_, rfl⟩
      · split
        · exact ⟨_, rfl⟩
        · split
          · exact ⟨_, rfl⟩
          · exact ⟨_, rfl⟩
    · exact ⟨_, rfl⟩

/-- Witness for claim C2: the pass-through conjunct applied at the
concrete non-ISO input "45 minutes". -/
theorem formatTime_spec_witness :
    formatTime (some "45 minutes") = some "45 minutes" :=
  formatTime_spec.2.2.2.1 "45 minutes" (by decide) (by decide)

/-- Claim C10: a string beginning with "PT" whose hours and minutes
components both parse to zero (such as "PT", "PT0M" or "PT0H0M") is
returned unchanged by `formatTime`, taking the pass-through branch
rather than rendering a zero duration. -/
theorem formatTime_zero_components :
    formatTime (some "PT") = some "PT" ∧
    formatTime (some "PT0M") = some "PT0M" ∧
    formatTime (some "PT0H0M") = some "PT0H0M" ∧
    (∀ cs : List Char, ptComponents cs = (0, 0) →
      formatTime (some (String.mk ('P' :: 'T' :: cs))) =
        some (String.mk ('P' :: 'T' :: cs))) := by
  refine ⟨by decide, by decide, by decide, ?_⟩
  intro cs h
  simp only [formatTime]
  rw [if_neg (by intro heq; have hd := congrArg String.data heq; simp at hd)]
  show (let hm := ptComponents cs;
    if hm.1 ≠ 0 ∧ hm.2 ≠ 0 then
      some (toString hm.1 ++ "h " ++ toString hm.2 ++ "m")
    else if hm.1 ≠ 0 then some (toString hm.1 ++ "h")
    else if hm.2 ≠ 0 then some (toString hm.2 ++ "m")
    else some (String.mk ('P' :: 'T' :: cs))) =
    some (String.mk ('P' :: 'T' :: cs))
  rw [h]
  simp

/-- Witness for claim C10: the quantified conjunct applied at the
concrete characters "X" following "PT". -/
theorem formatTime_zero_components_witness :
    formatTime (some (String.mk ['P', 'T', 'X'])) =
      some (String.mk ['P', 'T', 'X']) :=
  formatTime_zero_components.2.2.2 ['X'] (by decide)

/-- Claim C3, counterexample: a step-object carrying neither a text nor
a name field is converted by the generic string conversion and kept, so
it does contribute an element, refuting "a step-object with neither a
text nor a name field contributes no element". -/
theorem parseInstructions_bare_object_counterexample :
    parseInstructions (some (Json.arr [Json.obj []])) = ["[object Object]"] := by
  decide

/-- Claim C3 (amended): an absent or falsy value (including the empty
string) yields the empty sequence; a non-empty single string yields a
one-element sequence; a single step-object yields its string-valued
text field, else its string-valued name field; a sequence is mapped
element-wise by the per-item rule, where an element with no usable text
becomes its generic string conversion (an object with neither field
contributing "[object Object]"), and only elements that produced the
empty string are dropped; the mixed example normalizes in order. -/
theorem parseInstructions_spec :
    parseInstructions none = [] ∧
    parseInstructions (some (Json.str "")) = [] ∧
    (∀ s : String, s ≠ "" → parseInstructions (some (Json.str s)) = [s]) ∧
    (∀ fs t, jsonLookup fs "text" = some (Json.str t) →
      parseInstructions (some (Json.obj fs)) = [t]) ∧
    (∀ fs n, (∀ t, jsonLookup fs "text" ≠ some (Json.str t)) →
      jsonLookup fs "name" = some (Json.str n) →
      parseInstructions (some (Json.obj fs)) = [n]) ∧
    (∀ xs, parseInstructions (some (Json.arr xs)) =
      (xs.map instructionToText).filter (fun s => s ≠ "")) ∧
    parseInstructions (some (Json.arr
      [Json.str "Step one", Json.obj [("text", Json.str "Step two")],
        Json.obj [("name", Json.str "Step three")]])) =
      ["Step one", "Step two", "Step three"] := by
  refine ⟨rfl, by decide, ?_, ?_, ?_, ?_, by decide⟩
  · intro s hne
    simp only [parseInstructions, jsFalsy]
    rw [if_neg (by simpa using hne)]
  · intro fs t h
    simp only [parseInstructions, jsFalsy, h]
    rfl
  · intro fs n htext hname
    have hrw : parseInstructions (some (Json.obj fs)) =
        match jsonLookup fs "text" with
        | some (Json.str t) => [t]
        | _ =>
          match jsonLookup fs "name" with
          | some (Json.str n2) => [n2]
          | _ => [jsToString (Json.obj fs)] := rfl
    rw [hrw]
    cases hT : jsonLookup fs "text" with
    | none => simp [hname]
    | some v =>
      cases v with
      | str s => exact absurd hT (htext s)
      | null => simp [hname]
      | bool b => simp [hname]
      | num m => simp [hname]
      | arr xs => simp [hname]
      | obj fs2 => simp [hname]
  · intro xs
    rfl

/-- Witness for claim C3: the single-string conjunct applied at the
concrete string "Step". -/
theorem parseInstructions_spec_witness :
    parseInstructions (some (Json.str "Step")) = ["Step"] :=
  parseInstructions_spec.2.2.1 "Step" (by decide)

/-- Claim C8, counterexample: a structured-data node whose name field
is the empty string yields a recipe whose name is the empty string,
refuting "no structured-data result carries an empty name". -/
theorem parseJsonLdRecipe_empty_name_counterexample :
    (parseJsonLdRecipe (Json.obj [("name", Json.str "")])).name = "" := rfl

/-- Claim C8 (amended): the structured-data tier passes the name of the
node
through whenever it is a string (possibly empty) and falls back to
"Untitled Recipe" whenever it is absent or not a string; consequently
the produced name is non-empty except when the name of the node is exactly
the empty string. -/
theorem parseJsonLdRecipe_name_spec :
    (∀ data s, jsonGet data "name" = some (Json.str s) →
      (parseJsonLdRecipe data).name = s) ∧
    (∀ data, (∀ s, jsonGet data "name" ≠ some (Json.str s)) →
      (parseJsonLdRecipe data).name = "Untitled Recipe") ∧
    (∀ data, jsonGet data "name" ≠ some (Json.str "") →
      (parseJsonLdRecipe data).name ≠ "") := by
  have hname : ∀ data : Json, (parseJsonLdRecipe data).name =
      match jsonGet data "name" with
      | some (Json.str s) => s
      | _ => "Untitled Recipe" := fun _ => rfl
  refine ⟨?_, ?_, ?_⟩
  · intro data s h
    rw [hname, h]
  · intro data h
    rw [hname]
    split
    · rename_i s hs
      exact absurd hs (h s)
    · rfl
  · intro data h
    rw [hname]
    split
    · rename_i s hs
      intro hs0
      exact h (by rw [hs, hs0])
    · decide

/-- Witness for claim C8: the pass-through conjunct applied at a
concrete node with a non-empty name. -/
theorem parseJsonLdRecipe_name_spec_witness :
    (parseJsonLdRecipe (Json.obj [("name", Json.str "My Pie")])).name = "My Pie" :=
  parseJsonLdRecipe_name_spec.1 (Json.obj [("name", Json.str "My Pie")]) "My Pie" rfl

/-- Unfolding of `extractFromMicrodata` on a non-empty element list. -/
theorem extractFromMicrodata_cons (el : MicroElem) (rest : List MicroElem) :
    extractFromMicrodata (el :: rest) =
      if jsTrim el.nameText = "" then none
      else some
        { name := jsTrim el.nameText
          description := textOrNone el.descriptionText
          prepTime := attrOrText el.prepTimeAttr el.prepTimeText
          cookTime := attrOrText el.cookTimeAttr el.cookTimeText
          totalTime := attrOrText el.totalTimeAttr el.totalTimeText
          servings := textOrNone el.servingsText
          ingredients := (el.ingredientTexts.map jsTrim).filter (fun s => s ≠ "")
          instructions := (el.instructionTexts.map jsTrim).filter (fun s => s ≠ "")
          image :=
            match el.imageSrc with
            | some s => if s ≠ "" then some s else none
            | none => none
          url := "" } := rfl

/-- Unfolding of `extractFromHtmlPatterns`. -/
theorem extractFromHtmlPatterns_eq (d : HtmlDoc) :
    extractFromHtmlPatterns d =
      if findTitle d.titleTexts = "" then none
      else if (collectFromSelectors 2 [] d.ingredientSels).length = 0 ∨
          (collectFromSelectors 10 [] d.instructionSels).length = 0 then none
      else some
        { name := findTitle d.titleTexts
          ingredients := collectFromSelectors 2 [] d.ingredientSels
          instructions := collectFromSelectors 10 [] d.instructionSels
          url := "" } := rfl

/-- Unfolding of the selector loop on a non-empty selector list. -/
theorem collectFromSelectors_cons (minLen : Nat) (acc : List String)
    (sel : List String) (rest : List (List String)) :
    collectFromSelectors minLen acc (sel :: rest) =
      if 0 < (sel.foldl (collectStep minLen) acc).length
      then sel.foldl (collectStep minLen) acc
      else collectFromSelectors minLen (sel.foldl (collectStep minLen) acc) rest := rfl

/-- A recipe-typed item at the head of the item list wins immediately. -/
theorem findRecipeInItems_typed (item : Json) (items : List Json)
    (h : jsGetE item "@type" = Except.ok (some (Json.str "Recipe"))) :
    findRecipeInItems (item :: items) =
      Except.ok (some (parseJsonLdRecipe item)) := by
  unfold findRecipeInItems
  rw [h]
  rfl

/-- Claim C5: a structured-data block that fails to parse is skipped
and the scan continues with the next block; in particular a malformed
first block followed by a valid recipe-typed object block yields the
recipe of the second block. -/
theorem extractFromJsonLd_skips_malformed :
    (∀ rest, extractFromJsonLd (none :: rest) = extractFromJsonLd rest) ∧
    (∀ fs rest, jsonLookup fs "@type" = some (Json.str "Recipe") →
      extractFromJsonLd (none :: some (Json.obj fs) :: rest) =
        some (parseJsonLdRecipe (Json.obj fs))) := by
  refine ⟨fun rest => rfl, ?_⟩
  intro fs rest h
  have h1 : extractFromJsonLd (none :: some (Json.obj fs) :: rest) =
      extractFromJsonLd (some (Json.obj fs) :: rest) := rfl
  have h2 : findRecipeInItems [Json.obj fs] =
      Except.ok (some (parseJsonLdRecipe (Json.obj fs))) := by
    apply findRecipeInItems_typed
    simp only [jsGetE, h]
  rw [h1]
  show (match findRecipeInItems [Json.obj fs] with
    | Except.error () => extractFromJsonLd rest
    | Except.ok (some r) => some r
    | Except.ok none => extractFromJsonLd rest) =
    some (parseJsonLdRecipe (Json.obj fs))
  rw [h2]

/-- Witness for claim C5: a malformed first block and a concrete valid
recipe-typed second block. -/
theorem extractFromJsonLd_skips_malformed_witness :
    extractFromJsonLd [none, some sampleJsonLdNode] =
      some (parseJsonLdRecipe sampleJsonLdNode) :=
  extractFromJsonLd_skips_malformed.2
    [("@type", Json.str "Recipe"), ("name", Json.str "Bolognese"),
      ("recipeIngredient", Json.arr [Json.str "beef", Json.str "tomato"]),
      ("recipeInstructions",
        Json.arr [Json.str "Brown the beef", Json.str "Simmer the sauce"])]
    [] rfl

/-- Claim C1: the tiers are consulted in the fixed order structured
data, micro-annotation, heuristic, and the first non-null tier alone
determines the result, with no merging: a non-null structured-data
result is the overall result even when micro-annotation markup is also
present, a non-null micro-annotation result is the overall result when
structured data yielded null, and the heuristic result is the overall
result when both higher tiers yielded null. -/
theorem extractRecipe_tier_precedence :
    (∀ doc r, extractFromJsonLd doc.jsonLdBlocks = some r →
      extractRecipe doc = some r) ∧
    (∀ doc r, extractFromJsonLd doc.jsonLdBlocks = none →
      extractFromMicrodata doc.microdataElems = some r →
      extractRecipe doc = some r) ∧
    (∀ doc, extractFromJsonLd doc.jsonLdBlocks = none →
      extractFromMicrodata doc.microdataElems = none →
      extractRecipe doc = extractFromHtmlPatterns doc.html) := by
  refine ⟨?_, ?_, ?_⟩
  · intro doc r h
    simp only [extractRecipe, h]
  · intro doc r h1 h2
    simp only [extractRecipe, h1, h2]
  · intro doc h1 h2
    simp only [extractRecipe, h1, h2]

/-- Witness for claim C1: a document holding both a valid
structured-data block and micro-annotation markup produces exactly the
structured-data result, with ingredients and instructions in the
order given by the structured block. -/
theorem extractRecipe_tier_precedence_witness :
    extractRecipe docBothTiers = some (parseJsonLdRecipe sampleJsonLdNode) ∧
    (parseJsonLdRecipe sampleJsonLdNode).ingredients = ["beef", "tomato"] ∧
    (parseJsonLdRecipe sampleJsonLdNode).instructions =
      ["Brown the beef", "Simmer the sauce"] :=
  ⟨extractRecipe_tier_precedence.1 docBothTiers (parseJsonLdRecipe sampleJsonLdNode) rfl,
    rfl, rfl⟩

/-- Claim C6: the micro-annotation extractor returns null exactly when
no element carries the recipe type-annotation or the first such element
has an empty trimmed name; with a non-empty name on the first element
it always returns a record, with no emptiness gate on the collected
ingredient or instruction lists. -/
theorem extractFromMicrodata_null_iff :
    ∀ elems : List MicroElem,
      (extractFromMicrodata elems = none ↔
        elems = [] ∨ ∃ el rest, elems = el :: rest ∧ jsTrim el.nameText = "") ∧
      (∀ el rest, elems = el :: rest → jsTrim el.nameText ≠ "" →
        (extractFromMicrodata elems).isSome = true) := by
  intro elems
  cases elems with
  | nil =>
    refine ⟨?_, ?_⟩
    · simp [extractFromMicrodata]
    · intro el rest heq hne
      exact List.noConfusion heq
  | cons el rest =>
    refine ⟨?_, ?_⟩
    · rw [extractFromMicrodata_cons]
      by_cases h : jsTrim el.nameText = ""
      · rw [if_pos h]
        constructor
        · intro _
          exact Or.inr ⟨el, rest, rfl, h⟩
        · intro _
          rfl
      · rw [if_neg h]
        constructor
        · intro hcon
          exact Option.noConfusion hcon
        · intro hor
          rcases hor with h0 | ⟨el2, rest2, heq, h2⟩
          · exact List.noConfusion h0
          · injection heq with he hr
            exact absurd (he ▸ h2) h
    · intro el2 rest2 heq hne
      injection heq with he hr
      rw [extractFromMicrodata_cons, if_neg (by rw [he]; exact hne)]
      rfl

/-- Witness for claim C6: a concrete element with a non-empty name and
empty ingredient and instruction lists still yields a record. -/
theorem extractFromMicrodata_null_iff_witness :
    (extractFromMicrodata [{ nameText := "Bare Recipe" }]).isSome = true :=
  (extractFromMicrodata_null_iff [{ nameText := "Bare Recipe" }]).2
    { nameText := "Bare Recipe" } [] rfl (by decide)

/-- Claim C4: the heuristic extractor returns null unless the found
title is non-empty and at least one ingredient and at least one
instruction were collected; consequently a document with a recognizable
title but no matching ingredient candidate, and null results from the
two higher tiers, makes the whole pipeline report failure. -/
theorem heuristic_success_gate :
    (∀ d r, extractFromHtmlPatterns d = some r →
      r.name ≠ "" ∧ r.ingredients ≠ [] ∧ r.instructions ≠ []) ∧
    (∀ doc : Document, extractFromJsonLd doc.jsonLdBlocks = none →
      extractFromMicrodata doc.microdataElems = none →
      findTitle doc.html.titleTexts ≠ "" →
      collectFromSelectors 2 [] doc.html.ingredientSels = [] →
      extractRecipe doc = none) := by
  refine ⟨?_, ?_⟩
  · intro d r h
    rw [extractFromHtmlPatterns_eq] at h
    by_cases h1 : findTitle d.titleTexts = ""
    · rw [if_pos h1] at h
      exact Option.noConfusion h
    · rw [if_neg h1] at h
      by_cases h2 : (collectFromSelectors 2 [] d.ingredientSels).length = 0 ∨
          (collectFromSelectors 10 [] d.instructionSels).length = 0
      · rw [if_pos h2] at h
        exact Option.noConfusion h
      · rw [if_neg h2] at h
        injection h with hr
        rcases not_or.mp h2 with ⟨ha, hb⟩
        subst hr
        refine ⟨h1, ?_, ?_⟩
        · intro hnil
          have hnil2 : collectFromSelectors 2 [] d.ingredientSels = [] := hnil
          exact ha (by rw [hnil2]; rfl)
        · intro hnil
          have hnil2 : collectFromSelectors 10 [] d.instructionSels = [] := hnil
          exact hb (by rw [hnil2]; rfl)
  · intro doc h1 h2 h3 h4
    have hcascade : extractRecipe doc = extractFromHtmlPatterns doc.html := by
      simp only [extractRecipe, h1, h2]
    rw [hcascade, extractFromHtmlPatterns_eq, if_neg h3, if_pos]
    exact Or.inl (by rw [h4]; rfl)

/-- Witness for claim C4: the concrete document with a recognizable
title, an ingredient candidate that is too short, and no semantic
markup, on which the pipeline yields null. -/
theorem heuristic_success_gate_witness :
    extractRecipe heuristicFailDoc = none :=
  heuristic_success_gate.2 heuristicFailDoc rfl rfl (by decide) (by decide)

/-- Claim C7: selectors are tried in their fixed order and processing
stops at the first selector whose pass leaves the accumulator
non-empty; only the candidates of that selector (duplicate-suppressed within
the pass) are the result and later selectors contribute nothing, while
a selector whose pass collects nothing hands over to the next
selector; collected candidate lists contain no duplicates. -/
theorem selector_first_match_wins :
    (∀ (minLen : Nat) (A : List String) (rest : List (List String)),
      A.foldl (collectStep minLen) [] ≠ [] →
      collectFromSelectors minLen [] (A :: rest) =
        A.foldl (collectStep minLen) []) ∧
    (∀ (minLen : Nat) (A : List String) (rest : List (List String)),
      A.foldl (collectStep minLen) [] = [] →
      collectFromSelectors minLen [] (A :: rest) =
        collectFromSelectors minLen [] rest) ∧
    (∀ (minLen : Nat) (acc sel : List String),
      acc.Nodup → (sel.foldl (collectStep minLen) acc).Nodup) := by
  refine ⟨?_, ?_, ?_⟩
  · intro minLen A rest h
    rw [collectFromSelectors_cons, if_pos (List.length_pos.mpr h)]
  · intro minLen A rest h
    rw [collectFromSelectors_cons, h]
    simp
  · intro minLen acc sel
    induction sel generalizing acc with
    | nil => intro h; exact h
    | cons x xs ih =>
      intro h
      rw [List.foldl_cons]
      apply ih
      unfold collectStep
      split
      · rename_i hcond
        refine List.Nodup.append h (List.nodup_singleton _) ?_
        intro a ha hb
        rw [List.mem_singleton] at hb
        subst hb
        exact hcond.2.2 ha
      · exact h

/-- Witness for claim C7: an earlier selector with 2 sufficiently long
matches wins over a later selector with 5; only its 2 matches appear. -/
theorem selector_first_match_wins_witness :
    collectFromSelectors 2 []
      [["1 cup flour", "2 cups sugar"],
        ["salt", "pepper", "olive oil", "basil", "garlic"]] =
      ["1 cup flour", "2 cups sugar"] := by
  have h := selector_first_match_wins.1 2 ["1 cup flour", "2 cups sugar"]
    [["salt", "pepper", "olive oil", "basil", "garlic"]] (by decide)
  rw [h]
  decide

/-- Unfolding of `cacheInsert`. -/
theorem cacheInsert_eq (m : Cache) (k : String) (v : Recipe) :
    cacheInsert m k v =
      if MAX_CACHE_SIZE < (mapSet m k v).length then
        match (mapSet m k v).head? with
        | some p =>
          if p.1 ≠ "" then mapDelete (mapSet m k v) p.1 else mapSet m k v
        | none => mapSet m k v
      else mapSet m k v := rfl

/-- `Map.set` grows the entry list by at most one entry. -/
theorem mapSet_length (m : Cache) (k : String) (v : Recipe) :
    (mapSet m k v).length ≤ m.length + 1 := by
  unfold mapSet
  split
  · rw [List.length_map]
    omega
  · rw [List.length_append]
    simp

/-- `Map.set` keeps the keys without duplicates. -/
theorem mapSet_keys_nodup (m : Cache) (k : String) (v : Recipe)
    (h : (m.map Prod.fst).Nodup) : ((mapSet m k v).map Prod.fst).Nodup := by
  unfold mapSet
  split
  · rename_i hany
    have hkeys : (List.map (fun p => if p.1 == k then (k, v) else p) m).map Prod.fst
        = m.map Prod.fst := by
      rw [List.map_map]
      apply List.map_congr_left
      intro p hp
      simp only [Function.comp_apply]
      split
      · rename_i hbeq
        exact (eq_of_beq hbeq).symm
      · rfl
    rw [hkeys]
    exact h
  · rename_i hany
    rw [List.map_append]
    refine List.Nodup.append h (by simp) ?_
    intro a ha hb
    simp only [List.map_cons, List.map_nil, List.mem_singleton] at hb
    subst hb
    rw [List.mem_map] at ha
    obtain ⟨p, hp, hpk⟩ := ha
    apply hany
    rw [List.any_eq_true]
    refine ⟨p, hp, ?_⟩
    rw [hpk]
    simp

/-- `Map.set` with a non-empty key keeps every key non-empty. -/
theorem mapSet_keys_ne (m : Cache) (k : String) (v : Recipe)
    (hk : k ≠ "") (hm : ∀ p ∈ m, p.1 ≠ "") :
    ∀ p ∈ mapSet m k v, p.1 ≠ "" := by
  unfold mapSet
  split
  · intro p hp
    rw [List.mem_map] at hp
    obtain ⟨q, hq, hfq⟩ := hp
    subst hfq
    split
    · exact hk
    · exact hm q hq
  · intro p hp
    rw [List.mem_append] at hp
    rcases hp with h | h
    · exact hm p h
    · rw [List.mem_singleton] at h
      subst h
      exact hk

/-- Deleting the head key of a duplicate-free entry list removes exactly
the head entry. -/
theorem mapDelete_head (p : String × Recipe) (t : Cache)
    (h : p.1 ∉ t.map Prod.fst) :
    mapDelete (p :: t) p.1 = t := by
  unfold mapDelete
  rw [List.filter_cons]
  have hfalse : (decide (p.1 ≠ p.1)) = false := by simp
  rw [hfalse]
  simp only [Bool.false_eq_true, if_false]
  rw [List.filter_eq_self]
  intro a ha
  simp only [decide_eq_true_eq]
  intro heq
  exact h (by rw [← heq]; exact List.mem_map_of_mem Prod.fst ha)

/-- An overflowing insertion deletes exactly the oldest entry: the
result is the tail of the post-`set` entry list. -/
theorem cacheInsert_over (m : Cache) (k : String) (v : Recipe)
    (hnd : ((mapSet m k v).map Prod.fst).Nodup)
    (hne : ∀ p ∈ mapSet m k v, p.1 ≠ "")
    (hover : MAX_CACHE_SIZE < (mapSet m k v).length) :
    cacheInsert m k v = (mapSet m k v).tail := by
  cases hm2 : mapSet m k v with
  | nil =>
    rw [hm2] at hover
    simp [MAX_CACHE_SIZE] at hover
  | cons p t =>
    rw [hm2] at hnd hne hover
    rw [cacheInsert_eq, hm2, if_pos hover]
    show (if p.1 ≠ "" then mapDelete (p :: t) p.1 else p :: t) = (p :: t).tail
    rw [if_pos (hne p (List.mem_cons_self p t)), List.tail_cons]
    apply mapDelete_head
    rw [List.map_cons, List.nodup_cons] at hnd
    exact hnd.1

/-- A non-overflowing insertion is just the `set`. -/
theorem cacheInsert_not_over (m : Cache) (k : String) (v : Recipe)
    (h : ¬ MAX_CACHE_SIZE < (mapSet m k v).length) :
    cacheInsert m k v = mapSet m k v := by
  rw [cacheInsert_eq, if_neg h]

/-- Invariant of every reachable cache state: at most `MAX_CACHE_SIZE`
entries, duplicate-free keys, and every key non-empty. -/
theorem cache_state_invariant :
    ∀ m, ReachableCache m →
      m.length ≤ MAX_CACHE_SIZE ∧ (m.map Prod.fst).Nodup ∧
        ∀ p ∈ m, p.1 ≠ "" := by
  intro m h
  induction h with
  | empty =>
    refine ⟨by simp [MAX_CACHE_SIZE], List.nodup_nil, ?_⟩
    intro p hp
    cases hp
  | insert m k v hm hk ih =>
    obtain ⟨hlen, hnd, hne⟩ := ih
    have h2nd := mapSet_keys_nodup m k v hnd
    have h2ne := mapSet_keys_ne m k v hk hne
    have h2len := mapSet_length m k v
    by_cases hover : MAX_CACHE_SIZE < (mapSet m k v).length
    · rw [cacheInsert_over m k v h2nd h2ne hover]
      refine ⟨?_, ?_, ?_⟩
      · have ht := List.length_tail (mapSet m k v)
        omega
      · rw [List.map_tail]
        exact List.Nodup.sublist (List.tail_sublist _) h2nd
      · intro q hq
        exact h2ne q (List.mem_of_mem_tail hq)
    · rw [cacheInsert_not_over m k v hover]
      exact ⟨by omega, h2nd, h2ne⟩

/-- Claim C9: the recipe cache holds at most `MAX_CACHE_SIZE` (100)
entries after every completed insertion from the empty cache, and an
insertion that pushes the size past the capacity evicts exactly one
entry, the oldest (the result is the tail of the post-`set` list). -/
theorem cache_capacity_invariant :
    MAX_CACHE_SIZE = 100 ∧
    ∀ (m : Cache) (k : String) (v : Recipe), ReachableCache m → k ≠ "" →
      (cacheInsert m k v).length ≤ MAX_CACHE_SIZE ∧
      (MAX_CACHE_SIZE < (mapSet m k v).length →
        cacheInsert m k v = (mapSet m k v).tail) := by
  refine ⟨rfl, ?_⟩
  intro m k v hm hk
  obtain ⟨hlen, hnd, hne⟩ := cache_state_invariant m hm
  constructor
  · exact (cache_state_invariant (cacheInsert m k v)
      (ReachableCache.insert m k v hm hk)).1
  · intro hover
    exact cacheInsert_over m k v (mapSet_keys_nodup m k v hnd)
      (mapSet_keys_ne m k v hk hne) hover

/-- Witness for claim C9: inserting into the empty cache keeps the size
within the capacity. -/
theorem cache_capacity_invariant_witness :
    (cacheInsert [] "u" sampleRecipe).length ≤ MAX_CACHE_SIZE :=
  (cache_capacity_invariant.2 [] "u" sampleRecipe ReachableCache.empty
    (by decide)).1
